import Mathlib

/-!
Shallow embedding of `src/uhdl/hw.py` (configuration resolution, conversion-spec
registry, conversion dispatch and simulation dispatch of the `HW` facade).

Python dictionaries are modelled as association lists in insertion order.  The
case-insensitive dictionary (`CaselessDict`, from `uhdl/structures.py`, which is
not part of the sources here) is modelled from the spec: key comparison folds
case, first-seen casing is preserved, insertion order is preserved.  Filesystem
and external-tool side effects (converter invocation, artifact relocation,
working-directory changes, cosimulation launch) are recorded as an explicit
effect trace; the mutable attribute state that `get_convspec` writes onto the
module-level converter objects is threaded explicitly as a `ConvState`.
-/

deriving instance DecidableEq for Except

namespace Uhdl

/-- A Python value as it occurs in the configuration dictionaries of `hw.py`:
strings, booleans and None. -/
inductive Value where
  | vstr  : String → Value
  | vbool : Bool → Value
  | vnone : Value
deriving DecidableEq, Repr

/-- Python truthiness for the values above (nonempty string, `True`; `None` is
falsy). -/
def Value.truthy : Value → Bool
  | .vstr s => !(s == "")
  | .vbool b => b
  | .vnone => false

/-- An ordered association list of configuration entries, modelling a Python
mapping in insertion order. -/
abbrev Dict := List (String × Value)

/-- ASCII lower-casing of one character. -/
def lcChar (c : Char) : Char :=
  if c.toNat ≥ 65 ∧ c.toNat ≤ 90 then Char.ofNat (c.toNat + 32) else c

/-- Key normalisation used by the case-insensitive containers, modelling
Python's `str.lower()` on the configuration keys (all ASCII). -/
def lc (s : String) : String := String.mk (s.data.map lcChar)

/-- Key comparison under a normalisation: with `norm = id` this is the exact
key comparison of a plain Python dict, with `norm = lc` the case-folding
comparison of `CaselessDict`. -/
def keyMatch (norm : String → String) (k : String) (p : String × Value) : Bool :=
  norm p.1 == norm k

/-- Lookup: first entry whose key matches. -/
def aGet? (norm : String → String) (d : Dict) (k : String) : Option Value :=
  (d.find? (keyMatch norm k)).map (·.2)

/-- Assignment: overwrite the value at a matching key keeping its stored
casing and position, or append a fresh entry. -/
def aSet (norm : String → String) (d : Dict) (k : String) (v : Value) : Dict :=
  if d.any (keyMatch norm k) then
    d.map (fun p => if keyMatch norm k p then (p.1, v) else p)
  else d ++ [(k, v)]

/-- Value of the last entry whose key matches (the value left in place after
inserting the entries one by one). -/
def aLast? (norm : String → String) (d : Dict) (k : String) : Option Value :=
  (d.reverse.find? (keyMatch norm k)).map (·.2)

/-- `d.update(o)`: assign every entry of `o` into `d`, in order. -/
def aUpd (norm : String → String) (d o : Dict) : Dict :=
  o.foldl (fun acc p => aSet norm acc p.1 p.2) d

/-- No two entries share a key (up to the normalisation). -/
def aDisjointKeys (norm : String → String) : Dict → Bool
  | [] => true
  | p :: rest => rest.all (fun q => !(norm p.1 == norm q.1)) && aDisjointKeys norm rest

/-- Plain Python dict lookup (exact keys). -/
def dictGet? : Dict → String → Option Value := aGet? id

/-- Plain Python dict assignment. -/
def dictSet : Dict → String → Value → Dict := aSet id

/-- Last-writer value for an exact key. -/
def dictLast? : Dict → String → Option Value := aLast? id

/-- `dict.pop(k)`: the value at `k` together with the dict with that key
removed; `none` models the `KeyError`. -/
def dictPop? (d : Dict) (k : String) : Option (Value × Dict) :=
  match dictGet? d k with
  | none => none
  | some v => some (v, d.filter (fun p => !(p.1 == k)))

/-- Modelled from the spec: `CaselessDict` lookup (`uhdl/structures.py` is not
in src/).  Key comparison folds case; the first (unique, by construction)
case-folded match is returned. -/
def cdGet? : Dict → String → Option Value := aGet? lc

/-- Modelled from the spec: `CaselessDict` assignment — overwrites the entry at
the case-folded key preserving first-seen casing, else appends. -/
def cdSet : Dict → String → Value → Dict := aSet lc

/-- Value of the last entry matching a key case-insensitively. -/
def cdLast? : Dict → String → Option Value := aLast? lc

/-- Modelled from the spec: `CaselessDict.update` — assigns the other mapping's
entries one by one in its insertion order. -/
def cdUpdate : Dict → Dict → Dict := aUpd lc

/-- Modelled from the spec: `CaselessDict(mapping)` — a fresh case-insensitive
mapping seeded with the given entries. -/
def cdFromDict (d : Dict) : Dict := cdUpdate [] d

/-- No two entries collide case-insensitively. -/
def cdDisjointKeys : Dict → Bool := aDisjointKeys lc

/-- `merge_config` from `src/uhdl/hw.py`: if the override dict is empty
(falsy), return the current configuration itself; otherwise build a fresh
`CaselessDict` from the current configuration and update it with the
override. -/
def merge_config (current new : Dict) : Dict :=
  if new = [] then current
  else cdUpdate (cdFromDict current) new

/-- The three converter objects of the module-level `_convspec` registry in
`hw.py`: the in-process `toMyHDL` wrapper and the external `toVerilog` /
`toVHDL` converters. -/
inductive ConverterId where
  | toMyHDL | toVerilog | toVHDL
deriving DecidableEq, Repr

/-- The module-level `_convspec` registry of `hw.py`: representation name →
(converter, optional file extension); the registry is a `CaselessDict`, so the
lookup folds case.  `none` models the `KeyError` for unregistered names. -/
def convspec (hdl : String) : Option (ConverterId × Option String) :=
  if lc hdl == "myhdl" then some (.toMyHDL, none)
  else if lc hdl == "verilog" then some (.toVerilog, some "v")
  else if lc hdl == "vhdl" then some (.toVHDL, some "vhd")
  else none

/-- The mutable attributes that `get_convspec` writes (via `setattr`) onto the
converter objects of the module-level registry; shared, persistent state. -/
structure ConvState where
  myhdlAttrs : Dict
  verilogAttrs : Dict
  vhdlAttrs : Dict
deriving DecidableEq, Repr

/-- Attribute dictionary of one converter object. -/
def ConvState.attrs (st : ConvState) : ConverterId → Dict
  | .toMyHDL => st.myhdlAttrs
  | .toVerilog => st.verilogAttrs
  | .toVHDL => st.vhdlAttrs

/-- `setattr(converter, k, v)` on a registry converter object (exact attribute
names, as in Python). -/
def attrSet (st : ConvState) (c : ConverterId) (k : String) (v : Value) : ConvState :=
  match c with
  | .toMyHDL => { st with myhdlAttrs := dictSet st.myhdlAttrs k v }
  | .toVerilog => { st with verilogAttrs := dictSet st.verilogAttrs k v }
  | .toVHDL => { st with vhdlAttrs := dictSet st.vhdlAttrs k v }

/-- `getattr(converter, k)`; `none` models the `AttributeError`. -/
def attrGet? (st : ConvState) (c : ConverterId) (k : String) : Option Value :=
  dictGet? (st.attrs c) k

/-- The exceptions `hw.py` can raise in the modelled fragment. -/
inductive UErr where
  | keyErr (k : String)
  | lookupErr (k : String)
  | typeErr
  | attrErr (k : String)
  | indexErr
  | notImplErr (msg : String)
  | valueErr (msg : String) (backendName : String)
deriving DecidableEq, Repr

/-- Observable side effects of conversion and simulation, in program order. -/
inductive Effect where
  | converterInvoked (c : ConverterId)
  | fileCopy (f : String) (dest : Value)
  | fileRemove (f : String)
  | chdir (p : Value)
  | topInvoked
  | traceSignalsInvoked
  | genHandleInvoked (c : ConverterId)
  | cosimInvoked (backendName : String) (hdl : Value) (files : List String)
deriving DecidableEq, Repr

/-- Whether an effect changes the process working directory. -/
def Effect.isChdir : Effect → Bool
  | .chdir _ => true
  | _ => false

/-- The copy-then-delete relocation loop of `HW._convert`, one artifact file at
a time, in order. -/
def relocEffects (dest : Value) : List String → List Effect
  | [] => []
  | f :: rest => .fileCopy f dest :: .fileRemove f :: relocEffects dest rest

/-- `get_convspec(conf)` from `hw.py`: pop the representation target, look it
up in the `_convspec` registry, apply every remaining entry as an attribute on
the converter object, and compute the artifact file list.  Returns the
resulting converter and files (or the exception) together with the converter
attribute state after the call. -/
def get_convspec (conf : Dict) (st : ConvState) :
    Except UErr (ConverterId × List String) × ConvState :=
  match dictPop? conf "hdl" with
  | none => (.error (.keyErr "hdl"), st)
  | some (hdlVal, rest) =>
    match dictGet? rest "name" with
    | none => (.error (.keyErr "name"), st)
    | some nameVal =>
      match hdlVal with
      | .vstr h =>
        match convspec h with
        | none => (.error (.lookupErr h), st)
        | some (converter, ext) =>
          let st1 := rest.foldl (fun s p => attrSet s converter p.1 p.2) st
          match ext with
          | none => (.ok (converter, []), st1)
          | some e =>
            if e = "" then (.ok (converter, []), st1)
            else
              match dictGet? rest "no_testbench" with
              | none => (.error (.keyErr "no_testbench"), st1)
              | some ntb =>
                match nameVal with
                | .vstr n =>
                  let base := if ntb.truthy then [n] else [n, "tb_" ++ n]
                  (.ok (converter, base.map (fun f => f ++ "." ++ e)), st1)
                | _ => (.error .typeErr, st1)
      | _ => (.error .typeErr, st)

/-- Result of `HW._convert`: converter and artifact files (or the exception),
the converter attribute state, and the effect trace. -/
structure ConvOut where
  result : Except UErr (ConverterId × List String)
  state : ConvState
  effects : List Effect
deriving DecidableEq, Repr

/-- `HW._convert(conf)` from `hw.py`: reject `'vhdl'` as unimplemented, build
the converter configuration, resolve it through `get_convspec`, invoke the
converter, and relocate the artifact files when the destination path is not
`'.'` (copy to the destination, then remove the original, per file). -/
def HW_convert_aux (conf : Dict) (st : ConvState) : ConvOut :=
  match cdGet? conf "hdl" with
  | none => ⟨.error (.keyErr "hdl"), st, []⟩
  | some hdlVal =>
    if hdlVal = .vstr "vhdl" then
      ⟨.error (.notImplErr "VHDL conversion not implemented yet."), st, []⟩
    else
      match cdGet? conf "name" with
      | none => ⟨.error (.keyErr "name"), st, []⟩
      | some nameVal =>
        match cdGet? conf "timescale" with
        | none => ⟨.error (.keyErr "timescale"), st, []⟩
        | some tsVal =>
          match cdGet? conf "tb" with
          | none => ⟨.error (.keyErr "tb"), st, []⟩
          | some tbVal =>
            match cdGet? conf "trace" with
            | none => ⟨.error (.keyErr "trace"), st, []⟩
            | some trVal =>
              let converter_conf : Dict :=
                [("hdl", hdlVal), ("name", nameVal), ("timescale", tsVal),
                 ("no_testbench", .vbool (!(tbVal.truthy || trVal.truthy))),
                 ("trace", trVal)]
              match get_convspec converter_conf st with
              | (.error e, st1) => ⟨.error e, st1, []⟩
              | (.ok (converter, files), st1) =>
                match cdGet? conf "path" with
                | none => ⟨.error (.keyErr "path"), st1, [.converterInvoked converter]⟩
                | some destPath =>
                  if destPath = .vstr "." then
                    ⟨.ok (converter, files), st1, [.converterInvoked converter]⟩
                  else
                    ⟨.ok (converter, files), st1,
                     .converterInvoked converter :: relocEffects destPath files⟩

/-- The class-level default configuration `HW.config` from `hw.py`. -/
def HW_class_config : Dict :=
  [("name", .vnone), ("path", .vstr "."), ("hdl", .vstr "myhdl"),
   ("backend", .vstr "myhdl"), ("timescale", .vstr "1ns/1ps"),
   ("tb", .vbool true), ("trace", .vbool true)]

/-- The per-instance configuration built by `HW.__init__`: a `CaselessDict`
copy of the class config with `name` seeded from the top function's name. -/
def HW_init_config (topName : String) : Dict :=
  cdSet (cdFromDict HW_class_config) "name" (.vstr topName)

/-- The configuration `HW.convert` resolves before calling `_convert`: the
keyword overrides get `hdl = 'verilog'` when they carry no (exact) `'hdl'`
key, and are then merged over the instance configuration. -/
def convert_resolved_conf (selfConfig kwargs : Dict) : Dict :=
  merge_config selfConfig
    (if (dictGet? kwargs "hdl").isSome then kwargs
     else dictSet kwargs "hdl" (.vstr "verilog"))

/-- `HW.convert(**kwargs)` from `hw.py`. -/
def HW_convert (selfConfig kwargs : Dict) (st : ConvState) : ConvOut :=
  HW_convert_aux (convert_resolved_conf selfConfig kwargs) st

/-- A simulation backend descriptor: the set of representation names it can
consume (`compilers`, in iteration order).  Modelled from the spec
(`uhdl/cosim.py` is not in src/). -/
structure Backend where
  compilers : List String
deriving DecidableEq, Repr

/-- The `CoSimulator.registry` mapping, backend name → descriptor. -/
abbrev Registry := List (String × Backend)

/-- Modelled from the spec: `CoSimulator.registry` lookup (`uhdl/cosim.py` is
not in src/); the spec says registry lookups use the case-insensitive
mapping. -/
def regGet? (reg : Registry) (k : String) : Option Backend :=
  (reg.find? (fun p => lc p.1 == lc k)).map (·.2)

/-- What `HW.sim` returns: the in-process generator result, or the
cosimulation session produced by a backend. -/
inductive SimRes where
  | genResult (c : ConverterId)
  | cosimResult (backendName : String)
deriving DecidableEq, Repr

/-- Result of `HW.sim`: the returned value (or the exception), the converter
attribute state, and the effect trace. -/
structure SimOut where
  result : Except UErr SimRes
  state : ConvState
  effects : List Effect
deriving DecidableEq, Repr

/-- The "sane defaults" prologue of `HW.sim` (hw.py lines 172-182): read the
backend name from the per-call keyword overrides only (default `'myhdl'`); for
a truthy non-`'myhdl'` name, look the backend up in `CoSimulator.registry` and,
when the overrides carry no (exact) `'hdl'` key, either fail with
`ValueError('Must specify hdl for backend', backend)` if it declares more than
one representation, or select its single representation implicitly. -/
def sim_resolve_kwargs (reg : Registry) (kwargs : Dict) : Except UErr Dict :=
  let backend_name := (dictGet? kwargs "backend").getD (.vstr "myhdl")
  if backend_name.truthy = true ∧ backend_name ≠ .vstr "myhdl" then
    match dictGet? kwargs "backend" with
    | some (.vstr bs) =>
      match regGet? reg bs with
      | none => .error (.keyErr bs)
      | some b =>
        if (dictGet? kwargs "hdl").isSome then .ok kwargs
        else if b.compilers.length > 1 then
          .error (.valueErr "Must specify hdl for backend" bs)
        else
          match b.compilers with
          | [] => .error .indexErr
          | c :: _ => .ok (dictSet kwargs "hdl" (.vstr c))
    | some _ => .error .typeErr
    | none => .error (.keyErr "backend")
  else .ok kwargs

/-- Calling the generator handle produced by `_convert`.  For the in-process
`toMyHDL` wrapper this is `toMyHDL.__call__`: read the `trace` class attribute
(set by `get_convspec`), and either run the top function under `traceSignals`
(after writing its `name`) or directly.  For the external converters the
handle is opaque; its invocation is a single effect. -/
def callGen (c : ConverterId) (st : ConvState) : Except UErr (List Effect) :=
  match c with
  | .toMyHDL =>
    match attrGet? st .toMyHDL "trace" with
    | none => .error (.attrErr "trace")
    | some trv =>
      if trv.truthy then
        match attrGet? st .toMyHDL "name" with
        | none => .error (.attrErr "name")
        | some _ => .ok [.traceSignalsInvoked]
      else .ok [.topInvoked]
  | c => .ok [.genHandleInvoked c]

/-- The dispatch body that `HW.sim` runs inside `cd(conf['path'])`: either
call the generator handle (`'myhdl'` backend, compared case-sensitively) or
look the configured backend up in `CoSimulator.registry` and launch the
cosimulation with `(conf['hdl'], files, converter.portmap)`; returns the
result (or exception) and the effects the body performs. -/
def sim_dispatch (reg : Registry) (conf : Dict) (converter : ConverterId)
    (files : List String) (stc : ConvState) : Except UErr SimRes × List Effect :=
  match cdGet? conf "backend" with
  | none => (.error (.keyErr "backend"), [])
  | some bk =>
    if bk = .vstr "myhdl" then
      match callGen converter stc with
      | .error e => (.error e, [])
      | .ok effs => (.ok (.genResult converter), effs)
    else
      match bk with
      | .vstr bs =>
        match regGet? reg bs with
        | none => (.error (.keyErr bs), [])
        | some _ =>
          match cdGet? conf "hdl" with
          | none => (.error (.keyErr "hdl"), [])
          | some hdlVal =>
            match attrGet? stc converter "portmap" with
            | none => (.error (.attrErr "portmap"), [])
            | some _ => (.ok (.cosimResult bs), [.cosimInvoked bs hdlVal files])
      | _ => (.error .typeErr, [])

/-- `HW.sim(**kwargs)` from `hw.py`: resolve the keyword overrides (backend
defaulting and implicit representation selection), merge them over the
instance configuration, run `_convert`, then — inside `cd(conf['path'])`,
which changes into the destination directory and restores the saved working
directory `cwd0` on every exit path (`cd` is modelled from the spec,
`uhdl/utils.py` is not in src/) — run the dispatch body. -/
def sim (reg : Registry) (selfConfig kwargs : Dict) (st : ConvState) (cwd0 : String) :
    SimOut :=
  match sim_resolve_kwargs reg kwargs with
  | .error e => ⟨.error e, st, []⟩
  | .ok kwargs1 =>
    let conf := merge_config selfConfig kwargs1
    let co := HW_convert_aux conf st
    match co.result with
    | .error e => ⟨.error e, co.state, co.effects⟩
    | .ok (converter, files) =>
      match cdGet? conf "path" with
      | none => ⟨.error (.keyErr "path"), co.state, co.effects⟩
      | some pathVal =>
        match pathVal with
        | .vstr _ =>
          let body := sim_dispatch reg conf converter files co.state
          ⟨body.1, co.state,
           co.effects ++ [.chdir pathVal] ++ body.2 ++ [.chdir (.vstr cwd0)]⟩
        | _ => ⟨.error .typeErr, co.state, co.effects⟩

/-- Whether a path string is absolute (starts with a slash). -/
def isAbsPath (s : String) : Bool :=
  match s.data with
  | [] => false
  | c :: _ => c == '/'

/-- `os.chdir` semantics on a working directory: `'.'` is a no-op, an absolute
path replaces the working directory, a relative path descends into it; a
non-string argument raises before changing anything. -/
def chdirResolve (cwd : String) (p : Value) : String :=
  match p with
  | .vstr s => if s = "." then cwd else if isAbsPath s then s else cwd ++ "/" ++ s
  | _ => cwd

/-- The working directory after replaying an effect trace. -/
def foldCwd : String → List Effect → String
  | cwd, [] => cwd
  | cwd, Effect.chdir p :: rest => foldCwd (chdirResolve cwd p) rest
  | cwd, _ :: rest => foldCwd cwd rest

/-- Specification-side description of the merged configuration (spec 4.2): all
of the current configuration's entries overwritten key-by-key with the
override's entries. -/
def spec_merged_lookup (current new : Dict) (k : String) : Option Value :=
  match cdLast? new k with
  | some v => some v
  | none => cdGet? current k

/-- The converter attribute state before any conversion has run. -/
def emptyConvState : ConvState := ⟨[], [], []⟩

theorem find?_append_eq {α : Type} (l1 l2 : List α) (p : α → Bool) :
    (l1 ++ l2).find? p =
      match l1.find? p with
      | some x => some x
      | none => l2.find? p := by
  induction l1 with
  | nil => simp
  | cons a t ih =>
    by_cases h : p a = true
    · simp [List.find?_cons, h]
    · simp only [List.cons_append, List.find?_cons, h]
      simpa [h] using ih

theorem aGet?_nil (norm : String → String) (k : String) : aGet? norm [] k = none := rfl

theorem aGet?_cons (norm : String → String) (p : String × Value) (t : Dict) (k : String) :
    aGet? norm (p :: t) k =
      if norm p.1 = norm k then some p.2 else aGet? norm t k := by
  by_cases h : norm p.1 = norm k <;> simp [aGet?, keyMatch, List.find?_cons, h]

theorem aGet?_map_overwrite (norm : String → String) (d : Dict) (k k' : String) (v : Value) :
    aGet? norm (d.map (fun p => if keyMatch norm k p then (p.1, v) else p)) k' =
      if norm k' = norm k then
        (if d.any (keyMatch norm k) then some v else none)
      else aGet? norm d k' := by
  induction d with
  | nil => simp [aGet?]
  | cons p t ih =>
    simp only [List.map_cons, List.any_cons]
    by_cases hp : norm p.1 = norm k
    · have hb : keyMatch norm k p = true := by simp [keyMatch, hp]
      simp only [hb, if_true]
      rw [aGet?_cons]
      by_cases hk : norm k' = norm k
      · have hpk' : norm p.1 = norm k' := hp.trans hk.symm
        simp [hpk', hk, hb]
      · have hpk' : ¬ norm p.1 = norm k' := fun hh => hk (hp ▸ hh.symm)
        rw [if_neg hpk', ih, if_neg hk, aGet?_cons, if_neg hpk']
        simp [hk]
    · have hb : keyMatch norm k p = false := by simp [keyMatch, hp]
      simp only [hb, Bool.false_eq_true, if_false]
      rw [aGet?_cons]
      by_cases hpk' : norm p.1 = norm k'
      · have hk : ¬ norm k' = norm k := fun hh => hp (hpk'.trans hh)
        rw [if_pos hpk', if_neg hk, aGet?_cons, if_pos hpk']
      · rw [if_neg hpk', ih, aGet?_cons, if_neg hpk']
        by_cases hk : norm k' = norm k
        · cases htany : t.any (keyMatch norm k) <;> simp [htany, hk]
        · simp [hk]

theorem aGet?_append_singleton (norm : String → String) (d : Dict) (k k' : String) (v : Value) :
    aGet? norm (d ++ [(k, v)]) k' =
      match aGet? norm d k' with
      | some w => some w
      | none => if norm k' = norm k then some v else none := by
  unfold aGet?
  rw [find?_append_eq]
  cases h : d.find? (keyMatch norm k') with
  | none =>
    by_cases hk : norm k' = norm k
    · have : keyMatch norm k' (k, v) = true := by simp [keyMatch, hk]
      simp [List.find?_cons, this, hk]
    · have : keyMatch norm k' (k, v) = false := by
        simp [keyMatch]
        exact fun hh => hk hh.symm
      simp [List.find?_cons, this, hk]
  | some x => simp

theorem aGet?_aSet (norm : String → String) (d : Dict) (k k' : String) (v : Value) :
    aGet? norm (aSet norm d k v) k' =
      if norm k' = norm k then some v else aGet? norm d k' := by
  unfold aSet
  by_cases hany : d.any (keyMatch norm k) = true
  · rw [if_pos hany, aGet?_map_overwrite, hany]
    by_cases hk : norm k' = norm k <;> simp [hk]
  · rw [if_neg hany, aGet?_append_singleton]
    have hnone : aGet? norm d k = none := by
      unfold aGet?
      rw [List.find?_eq_none.mpr]
      · rfl
      · intro x hx
        intro hpx
        exact hany (List.any_eq_true.mpr ⟨x, hx, hpx⟩)
    by_cases hk : norm k' = norm k
    · have hkn : aGet? norm d k' = none := by
        unfold aGet? at hnone ⊢
        have he : (keyMatch norm k') = (keyMatch norm k) := by
          funext p; simp [keyMatch, hk]
        rw [he]
        exact hnone
      simp [hkn, hk]
    · cases h : aGet? norm d k' <;> simp [hk]

theorem aLast?_nil (norm : String → String) (k : String) : aLast? norm [] k = none := rfl

theorem aLast?_append_singleton (norm : String → String) (o : Dict) (p : String × Value)
    (k : String) :
    aLast? norm (o ++ [p]) k =
      if norm p.1 = norm k then some p.2 else aLast? norm o k := by
  unfold aLast?
  rw [List.reverse_append]
  by_cases h : norm p.1 = norm k <;> simp [List.find?_cons, keyMatch, h]

theorem aGet?_aUpd (norm : String → String) (d o : Dict) (k : String) :
    aGet? norm (aUpd norm d o) k =
      match aLast? norm o k with
      | some v => some v
      | none => aGet? norm d k := by
  induction o using List.reverseRecOn with
  | nil => simp [aUpd, aLast?_nil]
  | append_singleton o p ih =>
    have hfold : aUpd norm d (o ++ [p]) = aSet norm (aUpd norm d o) p.1 p.2 := by
      unfold aUpd
      rw [List.foldl_append]
      rfl
    rw [hfold, aGet?_aSet, aLast?_append_singleton]
    by_cases h : norm p.1 = norm k
    · simp [h]
    · have h' : ¬ norm k = norm p.1 := fun hh => h hh.symm
      simp [h, h', ih]

theorem aGet?_eq_none_of_no_match (norm : String → String) (d : Dict) (k : String)
    (h : ∀ p ∈ d, norm p.1 ≠ norm k) : aGet? norm d k = none := by
  unfold aGet?
  rw [List.find?_eq_none.mpr]
  · rfl
  · intro x hx hpx
    exact h x hx (by simpa [keyMatch] using hpx)

theorem aLast?_eq_none_of_no_match (norm : String → String) (d : Dict) (k : String)
    (h : ∀ p ∈ d, norm p.1 ≠ norm k) : aLast? norm d k = none := by
  unfold aLast?
  rw [List.find?_eq_none.mpr]
  · rfl
  · intro x hx hpx
    exact h x (List.mem_reverse.mp hx) (by simpa [keyMatch] using hpx)

theorem aSet_eq_append (norm : String → String) (d : Dict) (k : String) (v : Value)
    (h : ∀ p ∈ d, norm p.1 ≠ norm k) : aSet norm d k v = d ++ [(k, v)] := by
  unfold aSet
  rw [if_neg]
  intro hany
  obtain ⟨x, hx, hpx⟩ := List.any_eq_true.mp hany
  exact h x hx (by simpa [keyMatch] using hpx)

theorem aGet?_eq_aLast?_of_disjoint (norm : String → String) (d : Dict) (k : String)
    (h : aDisjointKeys norm d = true) : aGet? norm d k = aLast? norm d k := by
  induction d with
  | nil => rfl
  | cons p t ih =>
    rw [aDisjointKeys] at h
    obtain ⟨hall, hrest⟩ : t.all (fun q => !(norm p.1 == norm q.1)) = true ∧
        aDisjointKeys norm t = true := by simpa using h
    have hall' : ∀ q ∈ t, norm p.1 ≠ norm q.1 := by
      intro q hq
      have := List.all_eq_true.mp hall q hq
      simpa using this
    unfold aLast?
    rw [List.reverse_cons, find?_append_eq]
    by_cases hp : norm p.1 = norm k
    · have : t.reverse.find? (keyMatch norm k) = none := by
        rw [List.find?_eq_none.mpr]
        intro x hx hpx
        exact hall' x (List.mem_reverse.mp hx) (by
          have : norm x.1 = norm k := by simpa [keyMatch] using hpx
          rw [this, hp])
      rw [this]
      simp [aGet?, List.find?_cons, keyMatch, hp]
    · have hLHS : aGet? norm (p :: t) k = aGet? norm t k := by
        simp [aGet?, List.find?_cons, keyMatch, hp]
      rw [hLHS, ih hrest]
      unfold aLast?
      have hb : (keyMatch norm k p) = false := by simp [keyMatch, hp]
      cases hfind : t.reverse.find? (keyMatch norm k) with
      | none => simp [List.reverse_cons, find?_append_eq, hfind, List.find?_cons, hb]
      | some x => simp [List.reverse_cons, find?_append_eq, hfind]

theorem attrSet_attrs_self (st : ConvState) (c : ConverterId) (k : String) (v : Value) :
    (attrSet st c k v).attrs c = dictSet (st.attrs c) k v := by
  cases c <;> rfl

theorem foldl_attrSet_attrs (l : Dict) (c : ConverterId) :
    ∀ st : ConvState,
      (l.foldl (fun s p => attrSet s c p.1 p.2) st).attrs c = aUpd id (st.attrs c) l := by
  induction l with
  | nil => intro st; rfl
  | cons p t ih =>
    intro st
    rw [List.foldl_cons, ih, attrSet_attrs_self]
    rfl

theorem foldCwd_append (c : String) (l1 l2 : List Effect) :
    foldCwd c (l1 ++ l2) = foldCwd (foldCwd c l1) l2 := by
  induction l1 generalizing c with
  | nil => rfl
  | cons e t ih => cases e <;> simp [foldCwd, ih]

theorem foldCwd_of_no_chdir (c : String) (l : List Effect)
    (h : ∀ e ∈ l, e.isChdir = false) : foldCwd c l = c := by
  induction l with
  | nil => rfl
  | cons e t ih =>
    have he : e.isChdir = false := h _ (List.mem_cons_self _ _)
    have ht := ih (fun x hx => h x (List.mem_cons_of_mem _ hx))
    cases e <;> simp [foldCwd, Effect.isChdir] at he ⊢ <;> exact ht

theorem relocEffects_no_chdir (dest : Value) (fs : List String) :
    ∀ e ∈ relocEffects dest fs, e.isChdir = false := by
  induction fs with
  | nil => intro e he; simp [relocEffects] at he
  | cons f t ih =>
    intro e he
    rw [relocEffects] at he
    rcases List.mem_cons.mp he with h | he2
    · simp [h, Effect.isChdir]
    · rcases List.mem_cons.mp he2 with h | h
      · simp [h, Effect.isChdir]
      · exact ih e h

theorem convert_aux_no_chdir (conf : Dict) (st : ConvState) :
    ∀ e ∈ (HW_convert_aux conf st).effects, e.isChdir = false := by
  intro e he
  unfold HW_convert_aux at he
  repeat' first
    | split at he
    | (simp only [] at he)
  all_goals simp only [List.mem_singleton, List.mem_cons, List.not_mem_nil] at he
  all_goals
    rcases he with rfl | h
    · rfl
    · first
       | exact h.elim
       | exact relocEffects_no_chdir _ _ e h

theorem dictGet?_eq_none_of_no_lc_key (d : Dict) (k : String)
    (hno : ∀ p ∈ d, lc p.1 ≠ lc k) : dictGet? d k = none :=
  aGet?_eq_none_of_no_match id d k (fun p hp h => hno p hp (by simp only [id] at h; rw [h]))

theorem dictSet_eq_append_of_no_lc_key (d : Dict) (k : String) (v : Value)
    (hno : ∀ p ∈ d, lc p.1 ≠ lc k) : dictSet d k v = d ++ [(k, v)] :=
  aSet_eq_append id d k v (fun p hp h => hno p hp (by simp only [id] at h; rw [h]))

theorem callGen_no_chdir (c : ConverterId) (st : ConvState) (effs : List Effect)
    (h : callGen c st = .ok effs) : ∀ e ∈ effs, e.isChdir = false := by
  intro e he
  unfold callGen at h
  repeat' first
    | split at h
    | (simp only [] at h)
  all_goals first
    | exact Except.noConfusion h
    | (injection h with h2
       subst h2
       rcases List.mem_singleton.mp he with rfl
       rfl)

theorem convert_aux_eval
    (conf : Dict) (st : ConvState) (h n : String) (cv : ConverterId) (ext : Option String)
    (tsVal tbVal trVal pVal : Value)
    (hh : cdGet? conf "hdl" = some (.vstr h)) (hvh : h ≠ "vhdl")
    (hcs : convspec h = some (cv, ext))
    (hn : cdGet? conf "name" = some (.vstr n))
    (hts : cdGet? conf "timescale" = some tsVal)
    (htb : cdGet? conf "tb" = some tbVal)
    (htr : cdGet? conf "trace" = some trVal)
    (hp : cdGet? conf "path" = some pVal) :
    HW_convert_aux conf st =
      ⟨.ok (cv,
        match ext with
        | none => []
        | some e =>
          if e = "" then []
          else if (!(tbVal.truthy || trVal.truthy)) then [n ++ "." ++ e]
          else [n ++ "." ++ e, "tb_" ++ n ++ "." ++ e]),
       attrSet (attrSet (attrSet (attrSet st cv "name" (.vstr n))
         cv "timescale" tsVal) cv "no_testbench" (.vbool (!(tbVal.truthy || trVal.truthy))))
         cv "trace" trVal,
       .converterInvoked cv ::
         (if pVal = .vstr "." then []
          else relocEffects pVal
            (match ext with
             | none => []
             | some e =>
               if e = "" then []
               else if (!(tbVal.truthy || trVal.truthy)) then [n ++ "." ++ e]
               else [n ++ "." ++ e, "tb_" ++ n ++ "." ++ e]))⟩ := by
  unfold HW_convert_aux
  simp only [hh, hn, hts, htb, htr, hp]
  rw [if_neg (fun hx => hvh (Value.vstr.inj hx))]
  have hg : get_convspec
      [("hdl", Value.vstr h), ("name", Value.vstr n), ("timescale", tsVal),
       ("no_testbench", Value.vbool (!(tbVal.truthy || trVal.truthy))), ("trace", trVal)] st =
      (Except.ok (cv,
        match ext with
        | none => []
        | some e =>
          if e = "" then []
          else if (!(tbVal.truthy || trVal.truthy)) then [n ++ "." ++ e]
          else [n ++ "." ++ e, "tb_" ++ n ++ "." ++ e]),
       attrSet (attrSet (attrSet (attrSet st cv "name" (.vstr n))
         cv "timescale" tsVal) cv "no_testbench" (.vbool (!(tbVal.truthy || trVal.truthy))))
         cv "trace" trVal) := by
    unfold get_convspec
    have hpop : dictPop?
        [("hdl", Value.vstr h), ("name", Value.vstr n), ("timescale", tsVal),
         ("no_testbench", Value.vbool (!(tbVal.truthy || trVal.truthy))), ("trace", trVal)] "hdl" =
        some (Value.vstr h,
          [("name", Value.vstr n), ("timescale", tsVal),
           ("no_testbench", Value.vbool (!(tbVal.truthy || trVal.truthy))), ("trace", trVal)]) := rfl
    rw [hpop]
    have hname : dictGet?
        [("name", Value.vstr n), ("timescale", tsVal),
         ("no_testbench", Value.vbool (!(tbVal.truthy || trVal.truthy))), ("trace", trVal)] "name" =
        some (Value.vstr n) := rfl
    simp only [hname, hcs]
    cases ext with
    | none => rfl
    | some e =>
      by_cases he : e = ""
      · subst he
        simp
      · simp only [he, if_false]
        have hntb : dictGet?
            [("name", Value.vstr n), ("timescale", tsVal),
             ("no_testbench", Value.vbool (!(tbVal.truthy || trVal.truthy))), ("trace", trVal)]
            "no_testbench" = some (Value.vbool (!(tbVal.truthy || trVal.truthy))) := rfl
        simp only [hntb]
        cases hb : (!(tbVal.truthy || trVal.truthy)) <;> simp [hb, Value.truthy]
  rw [hg]
  by_cases hpd : pVal = Value.vstr "." <;> simp [hpd]

/-- C3: `merge_config(C, O)` returns `C` itself when the override `O` is
empty, and otherwise a new case-insensitive mapping containing all of `C`'s
entries overwritten key-by-key with `O`'s entries (for every key, the merged
value is `O`'s last-written value when `O` touches the key, and `C`'s value
otherwise); as a pure function it mutates neither `C` nor `O`. -/
theorem merge_config_contract (C O : Dict) (hwf : cdDisjointKeys C = true) :
    merge_config C [] = C ∧
    ∀ k, cdGet? (merge_config C O) k = spec_merged_lookup C O k := by
  constructor
  · rw [merge_config, if_pos rfl]
  · intro k
    by_cases hO : O = []
    · subst hO
      rw [merge_config, if_pos rfl]
      unfold spec_merged_lookup
      rw [show cdLast? ([] : Dict) k = none from rfl]
    · rw [merge_config, if_neg hO]
      show aGet? lc (aUpd lc (cdFromDict C) O) k = _
      rw [aGet?_aUpd]
      unfold spec_merged_lookup
      cases hlast : cdLast? O k with
      | some v => rw [show aLast? lc O k = some v from hlast]
      | none =>
        rw [show aLast? lc O k = none from hlast]
        simp only [cdGet?, cdFromDict, cdUpdate]
        rw [aGet?_aUpd, aGet?_eq_aLast?_of_disjoint lc C k hwf]
        cases aLast? lc C k <;> rfl

/-- Applies C3's contract at a concrete configuration (with case-colliding
override key) and override. -/
theorem merge_config_contract_applied :
    cdDisjointKeys [("Name", .vstr "a"), ("path", .vstr ".")] = true ∧
    merge_config [("Name", .vstr "a"), ("path", .vstr ".")] [] =
      [("Name", .vstr "a"), ("path", .vstr ".")] ∧
    cdGet? (merge_config [("Name", .vstr "a"), ("path", .vstr ".")]
        [("NAME", .vstr "b")]) "name" =
      spec_merged_lookup [("Name", .vstr "a"), ("path", .vstr ".")]
        [("NAME", .vstr "b")] "name" := by
  refine ⟨by decide, ?_, ?_⟩
  · exact (merge_config_contract [("Name", .vstr "a"), ("path", .vstr ".")]
      [] (by decide)).1
  · exact (merge_config_contract [("Name", .vstr "a"), ("path", .vstr ".")]
      [("NAME", .vstr "b")] (by decide)).2 "name"

/-- C2: for every conversion-spec resolution, the artifact file list is empty
when the resolved representation has no (nonempty) extension, regardless of
the testbench flag; otherwise it is `[name]` plus, when a testbench was
requested (`no_testbench` falsy), `[tb_<name>]`, each suffixed with
`'.' + extension`, with the testbench name always second. -/
theorem get_convspec_artifact_files
    (conf : Dict) (st : ConvState) (h n : String) (cv : ConverterId)
    (ext : Option String) (ntb : Value)
    (hh : dictGet? conf "hdl" = some (.vstr h))
    (hcs : convspec h = some (cv, ext))
    (hn : dictGet? (conf.filter (fun p => !(p.1 == "hdl"))) "name" = some (.vstr n))
    (hnt : dictGet? (conf.filter (fun p => !(p.1 == "hdl"))) "no_testbench" = some ntb) :
    (get_convspec conf st).1 = .ok (cv,
      match ext with
      | none => []
      | some e =>
        if e = "" then []
        else if ntb.truthy then [n ++ "." ++ e]
        else [n ++ "." ++ e, "tb_" ++ n ++ "." ++ e]) := by
  have hpop : dictPop? conf "hdl" =
      some (.vstr h, conf.filter (fun p => !(p.1 == "hdl"))) := by
    unfold dictPop?
    rw [hh]
  unfold get_convspec
  rw [hpop]
  simp only [hn, hcs]
  cases ext with
  | none => rfl
  | some e =>
    by_cases he : e = ""
    · subst he
      simp
    · simp only [hnt, he, if_false]
      cases htr : ntb.truthy <;> simp [he, htr]

/-- Applies C2 at the spec's example: name `adder`, extension `v`, testbench
requested and not requested, plus the extensionless in-process target. -/
theorem get_convspec_artifact_files_applied :
    (get_convspec [("hdl", .vstr "verilog"), ("name", .vstr "adder"),
        ("no_testbench", .vbool false)] emptyConvState).1 =
      .ok (.toVerilog, ["adder.v", "tb_adder.v"]) ∧
    (get_convspec [("hdl", .vstr "verilog"), ("name", .vstr "adder"),
        ("no_testbench", .vbool true)] emptyConvState).1 =
      .ok (.toVerilog, ["adder.v"]) ∧
    (get_convspec [("hdl", .vstr "myhdl"), ("name", .vstr "adder"),
        ("no_testbench", .vbool false)] emptyConvState).1 =
      .ok (.toMyHDL, []) := by
  refine ⟨?_, ?_, ?_⟩
  · exact get_convspec_artifact_files
      [("hdl", .vstr "verilog"), ("name", .vstr "adder"), ("no_testbench", .vbool false)]
      emptyConvState "verilog" "adder" .toVerilog (some "v") (.vbool false) rfl rfl rfl rfl
  · exact get_convspec_artifact_files
      [("hdl", .vstr "verilog"), ("name", .vstr "adder"), ("no_testbench", .vbool true)]
      emptyConvState "verilog" "adder" .toVerilog (some "v") (.vbool true) rfl rfl rfl rfl
  · exact get_convspec_artifact_files
      [("hdl", .vstr "myhdl"), ("name", .vstr "adder"), ("no_testbench", .vbool false)]
      emptyConvState "myhdl" "adder" .toMyHDL none (.vbool false) rfl rfl rfl rfl

/-- C4 (code bug): the `NotImplementedError` guard of `HW._convert` compares
the configured representation value to `'vhdl'` case-sensitively while the
`_convspec` registry resolves names case-insensitively, so `convert` with
`hdl='vhdl'` raises before any effect, but `convert` with `hdl='VHDL'` — the
same resolved representation target — bypasses the guard and invokes the
external VHDL converter (computing the `.vhd` artifact names) instead of
raising. -/
theorem vhdl_guard_case_mismatch :
    (HW_convert (HW_init_config "adder") [("hdl", .vstr "vhdl")] emptyConvState).result =
      .error (.notImplErr "VHDL conversion not implemented yet.") ∧
    (HW_convert (HW_init_config "adder") [("hdl", .vstr "vhdl")] emptyConvState).effects = [] ∧
    (HW_convert (HW_init_config "adder") [("hdl", .vstr "VHDL")] emptyConvState).result =
      .ok (.toVHDL, ["adder.vhd", "tb_adder.vhd"]) ∧
    (HW_convert (HW_init_config "adder") [("hdl", .vstr "VHDL")] emptyConvState).effects =
      [.converterInvoked .toVHDL] :=
  ⟨rfl, rfl, rfl, rfl⟩

/-- C5: for every `convert` call whose resolved configuration has a string
destination path different from `'.'`, each artifact file is copied to the
destination and then removed from its original location — copy before delete,
per file, in file order (this is exactly `relocEffects`); with destination
`'.'`, no copy or delete effect occurs. -/
theorem convert_relocation
    (selfConfig kwargs : Dict) (st : ConvState) (h n p : String) (cv : ConverterId)
    (ext : Option String) (tsVal tbVal trVal : Value)
    (hh : cdGet? (convert_resolved_conf selfConfig kwargs) "hdl" = some (.vstr h))
    (hvh : h ≠ "vhdl")
    (hcs : convspec h = some (cv, ext))
    (hn : cdGet? (convert_resolved_conf selfConfig kwargs) "name" = some (.vstr n))
    (hts : cdGet? (convert_resolved_conf selfConfig kwargs) "timescale" = some tsVal)
    (htb : cdGet? (convert_resolved_conf selfConfig kwargs) "tb" = some tbVal)
    (htr : cdGet? (convert_resolved_conf selfConfig kwargs) "trace" = some trVal)
    (hp : cdGet? (convert_resolved_conf selfConfig kwargs) "path" = some (.vstr p)) :
    ∃ files,
      (HW_convert selfConfig kwargs st).result = .ok (cv, files) ∧
      (HW_convert selfConfig kwargs st).effects =
        .converterInvoked cv ::
          (if p = "." then [] else relocEffects (.vstr p) files) := by
  unfold HW_convert
  rw [convert_aux_eval _ st h n cv ext tsVal tbVal trVal (.vstr p) hh hvh hcs hn hts htb htr hp]
  refine ⟨_, rfl, ?_⟩
  by_cases hpd : p = "."
  · simp [hpd]
  · have hne : ¬ (Value.vstr p = Value.vstr ".") := fun hx => hpd (Value.vstr.inj hx)
    simp [hpd, hne]

/-- Applies C5 at a concrete conversion: destination `/out` relocates both
artifacts copy-then-delete; destination `'.'` produces no relocation
effects. -/
theorem convert_relocation_applied :
    (HW_convert (HW_init_config "adder") [("path", .vstr "/out")] emptyConvState).effects =
      [.converterInvoked .toVerilog,
       .fileCopy "adder.v" (.vstr "/out"), .fileRemove "adder.v",
       .fileCopy "tb_adder.v" (.vstr "/out"), .fileRemove "tb_adder.v"] ∧
    (HW_convert (HW_init_config "adder") [] emptyConvState).effects =
      [.converterInvoked .toVerilog] := by
  constructor
  · have h := convert_relocation (HW_init_config "adder") [("path", .vstr "/out")]
      emptyConvState "verilog" "adder" "/out" .toVerilog (some "v")
      (.vstr "1ns/1ps") (.vbool true) (.vbool true) rfl (by decide) rfl rfl rfl rfl rfl rfl
    rcases h with ⟨files, hres, heff⟩
    have hfiles : files = ["adder.v", "tb_adder.v"] := by
      have : (HW_convert (HW_init_config "adder") [("path", .vstr "/out")]
          emptyConvState).result = .ok (.toVerilog, ["adder.v", "tb_adder.v"]) := rfl
      rw [this] at hres
      injection hres with hr
      injection hr with hr1 hr2
      exact hr2.symm
    rw [heff, hfiles]
    rfl
  · have h := convert_relocation (HW_init_config "adder") []
      emptyConvState "verilog" "adder" "." .toVerilog (some "v")
      (.vstr "1ns/1ps") (.vbool true) (.vbool true) rfl (by decide) rfl rfl rfl rfl rfl rfl
    rcases h with ⟨files, hres, heff⟩
    rw [heff]
    rfl

/-- C8: for every `_convert` with an extension-bearing resolved
representation, the testbench artifact `tb_<name>.<ext>` is in the artifact
file set if and only if the `tb` option or the `trace` option is truthy —
trace without testbench still emits the testbench file. -/
theorem testbench_iff_tb_or_trace
    (conf : Dict) (st : ConvState) (h n e : String) (cv : ConverterId)
    (tsVal tbVal trVal pVal : Value)
    (hh : cdGet? conf "hdl" = some (.vstr h)) (hvh : h ≠ "vhdl")
    (hcs : convspec h = some (cv, some e)) (he : e ≠ "")
    (hn : cdGet? conf "name" = some (.vstr n))
    (hts : cdGet? conf "timescale" = some tsVal)
    (htb : cdGet? conf "tb" = some tbVal)
    (htr : cdGet? conf "trace" = some trVal)
    (hp : cdGet? conf "path" = some pVal) :
    ∃ files,
      (HW_convert_aux conf st).result = .ok (cv, files) ∧
      (("tb_" ++ n ++ "." ++ e) ∈ files ↔ (tbVal.truthy || trVal.truthy) = true) := by
  rw [convert_aux_eval conf st h n cv (some e) tsVal tbVal trVal pVal hh hvh hcs hn hts htb htr hp]
  refine ⟨_, rfl, ?_⟩
  have hlen : ("tb_" ++ n ++ "." ++ e) ≠ (n ++ "." ++ e) := by
    intro hEq
    have hL := congrArg String.length hEq
    simp [String.length_append] at hL
    have hlen3 : ("tb_" : String).length = 3 := rfl
    omega
  cases hb : (tbVal.truthy || trVal.truthy) with
  | true => simp [he, hb]
  | false => simp [he, hb, hlen]

/-- Applies C8 concretely: trace truthy with testbench disabled still yields
the testbench file, and both falsy suppresses it. -/
theorem testbench_iff_tb_or_trace_applied :
    (HW_convert_aux (merge_config (HW_init_config "adder")
        [("tb", .vbool false), ("trace", .vbool true), ("hdl", .vstr "verilog")])
        emptyConvState).result = .ok (.toVerilog, ["adder.v", "tb_adder.v"]) ∧
    ("tb_adder.v" ∈ ["adder.v", "tb_adder.v"] ↔
      ((Value.vbool false).truthy || (Value.vbool true).truthy) = true) ∧
    (HW_convert_aux (merge_config (HW_init_config "adder")
        [("tb", .vbool false), ("trace", .vbool false), ("hdl", .vstr "verilog")])
        emptyConvState).result = .ok (.toVerilog, ["adder.v"]) := by
  refine ⟨rfl, ?_, rfl⟩
  have h := testbench_iff_tb_or_trace
    (merge_config (HW_init_config "adder")
      [("tb", .vbool false), ("trace", .vbool true), ("hdl", .vstr "verilog")])
    emptyConvState "verilog" "adder" "v" .toVerilog
    (.vstr "1ns/1ps") (.vbool false) (.vbool true) (.vstr ".")
    rfl (by decide) rfl (by decide) rfl rfl rfl rfl rfl
  rcases h with ⟨files, hres, hiff⟩
  have hfiles : files = ["adder.v", "tb_adder.v"] := by
    have hres2 : (HW_convert_aux (merge_config (HW_init_config "adder")
        [("tb", .vbool false), ("trace", .vbool true), ("hdl", .vstr "verilog")])
        emptyConvState).result = .ok (.toVerilog, ["adder.v", "tb_adder.v"]) := rfl
    rw [hres2] at hres
    injection hres with hr
    injection hr with hr1 hr2
    exact hr2.symm
  rw [hfiles] at hiff
  exact hiff

theorem get_convspec_state (conf : Dict) (st : ConvState) (h : String) (cv : ConverterId)
    (ext : Option String) (nV : Value)
    (hh : dictGet? conf "hdl" = some (.vstr h)) (hcs : convspec h = some (cv, ext))
    (hn : dictGet? (conf.filter (fun p => !(p.1 == "hdl"))) "name" = some nV) :
    ∀ k, attrGet? (get_convspec conf st).2 cv k =
      match dictLast? (conf.filter (fun p => !(p.1 == "hdl"))) k with
      | some v => some v
      | none => attrGet? st cv k := by
  intro k
  have hpop : dictPop? conf "hdl" = some (.vstr h, conf.filter (fun p => !(p.1 == "hdl"))) := by
    unfold dictPop?
    rw [hh]
  have hst : (get_convspec conf st).2 =
      (conf.filter (fun p => !(p.1 == "hdl"))).foldl (fun s p => attrSet s cv p.1 p.2) st := by
    unfold get_convspec
    rw [hpop]
    simp only [hn, hcs]
    cases ext with
    | none => rfl
    | some e =>
      by_cases he : e = ""
      · subst he
        simp
      · simp only [he, if_false]
        cases hnt : dictGet? (conf.filter (fun p => !(p.1 == "hdl"))) "no_testbench" with
        | none => rfl
        | some ntb =>
          cases nV <;> cases hbt : ntb.truthy <;> simp [hnt, hbt]
  rw [hst]
  unfold attrGet?
  rw [foldl_attrSet_attrs]
  simp only [dictLast?, dictGet?]
  rw [aGet?_aUpd]

/-- C10: `get_convspec` applies the remaining configuration entries by
attribute assignment on the shared module-level converter object and those
writes persist after the call returns: the post-call attribute state holds the
call's values (falling back to the pre-call state for untouched attributes),
and a second resolution starting from that state observes — and key-by-key
overwrites — the values written by the most recent prior call rather than a
fresh per-call state. -/
theorem converter_attr_persistence
    (conf1 conf2 : Dict) (st : ConvState) (h1 h2 : String) (cv : ConverterId)
    (e1 e2 : Option String) (n1V n2V : Value)
    (hh1 : dictGet? conf1 "hdl" = some (.vstr h1)) (hc1 : convspec h1 = some (cv, e1))
    (hn1 : dictGet? (conf1.filter (fun p => !(p.1 == "hdl"))) "name" = some n1V)
    (hh2 : dictGet? conf2 "hdl" = some (.vstr h2)) (hc2 : convspec h2 = some (cv, e2))
    (hn2 : dictGet? (conf2.filter (fun p => !(p.1 == "hdl"))) "name" = some n2V) :
    (∀ k, attrGet? (get_convspec conf1 st).2 cv k =
      match dictLast? (conf1.filter (fun p => !(p.1 == "hdl"))) k with
      | some v => some v
      | none => attrGet? st cv k) ∧
    (∀ k, attrGet? (get_convspec conf2 (get_convspec conf1 st).2).2 cv k =
      match dictLast? (conf2.filter (fun p => !(p.1 == "hdl"))) k with
      | some v => some v
      | none => attrGet? (get_convspec conf1 st).2 cv k) :=
  ⟨get_convspec_state conf1 st h1 cv e1 n1V hh1 hc1 hn1,
   get_convspec_state conf2 ((get_convspec conf1 st).2) h2 cv e2 n2V hh2 hc2 hn2⟩

/-- Applies C10 concretely: the first resolution leaves `trace = True` on the
`toMyHDL` converter object; a second resolution with `trace = False` observes
the shared object and overwrites it, while an attribute the second call does
not touch (`timescale`) keeps the first call's value. -/
theorem converter_attr_persistence_applied :
    attrGet? (get_convspec [("hdl", .vstr "myhdl"), ("name", .vstr "adder"),
        ("timescale", .vstr "1ns/1ps"), ("trace", .vbool true)] emptyConvState).2
      .toMyHDL "trace" = some (.vbool true) ∧
    attrGet? (get_convspec [("hdl", .vstr "myhdl"), ("name", .vstr "blinker"),
        ("trace", .vbool false)]
        (get_convspec [("hdl", .vstr "myhdl"), ("name", .vstr "adder"),
          ("timescale", .vstr "1ns/1ps"), ("trace", .vbool true)] emptyConvState).2).2
      .toMyHDL "trace" = some (.vbool false) ∧
    attrGet? (get_convspec [("hdl", .vstr "myhdl"), ("name", .vstr "blinker"),
        ("trace", .vbool false)]
        (get_convspec [("hdl", .vstr "myhdl"), ("name", .vstr "adder"),
          ("timescale", .vstr "1ns/1ps"), ("trace", .vbool true)] emptyConvState).2).2
      .toMyHDL "timescale" = some (.vstr "1ns/1ps") := by
  have h := converter_attr_persistence
    [("hdl", .vstr "myhdl"), ("name", .vstr "adder"),
     ("timescale", .vstr "1ns/1ps"), ("trace", .vbool true)]
    [("hdl", .vstr "myhdl"), ("name", .vstr "blinker"), ("trace", .vbool false)]
    emptyConvState "myhdl" "myhdl" .toMyHDL none none
    (.vstr "adder") (.vstr "blinker") rfl rfl rfl rfl rfl rfl
  refine ⟨?_, ?_, ?_⟩
  · exact (h.1 "trace").trans rfl
  · exact (h.2 "trace").trans rfl
  · exact (h.2 "timescale").trans ((h.1 "timescale").trans rfl)

/-- C7: the default representation target depends on the operation: a
`convert` call whose keyword overrides carry no (case-insensitive) `hdl` key
resolves the target to `'verilog'`, while a `sim` call whose overrides carry
no `hdl` key and no non-default backend override leaves the target at the
instance's stored default `'myhdl'`. -/
theorem default_hdl_per_operation (topName : String) (reg : Registry) (kwargs : Dict)
    (hno : ∀ p ∈ kwargs, lc p.1 ≠ lc "hdl")
    (hb : dictGet? kwargs "backend" = none ∨
          dictGet? kwargs "backend" = some (.vstr "myhdl")) :
    cdGet? (convert_resolved_conf (HW_init_config topName) kwargs) "hdl" =
      some (.vstr "verilog") ∧
    sim_resolve_kwargs reg kwargs = .ok kwargs ∧
    cdGet? (merge_config (HW_init_config topName) kwargs) "hdl" =
      some (.vstr "myhdl") := by
  have hexact : dictGet? kwargs "hdl" = none := dictGet?_eq_none_of_no_lc_key kwargs "hdl" hno
  refine ⟨?_, ?_, ?_⟩
  · unfold convert_resolved_conf
    rw [hexact]
    simp only [Option.isSome_none, Bool.false_eq_true, if_false]
    rw [dictSet_eq_append_of_no_lc_key kwargs "hdl" (.vstr "verilog") hno]
    rw [merge_config, if_neg (by simp)]
    simp only [cdGet?, cdUpdate]
    rw [aGet?_aUpd, aLast?_append_singleton]
    simp
  · unfold sim_resolve_kwargs
    rcases hb with hb | hb <;>
      · rw [hb]
        exact if_neg (fun hx => hx.2 rfl)
  · by_cases hk : kwargs = []
    · subst hk
      rw [merge_config, if_pos rfl]
      rfl
    · rw [merge_config, if_neg hk]
      simp only [cdGet?, cdUpdate]
      rw [aGet?_aUpd]
      rw [aLast?_eq_none_of_no_match lc kwargs "hdl" hno]
      rfl

/-- Applies C7 at concrete calls: empty overrides, and overrides that touch an
unrelated option. -/
theorem default_hdl_per_operation_applied :
    cdGet? (convert_resolved_conf (HW_init_config "adder") []) "hdl" =
      some (.vstr "verilog") ∧
    sim_resolve_kwargs [] [("Trace", .vbool false)] = .ok [("Trace", .vbool false)] ∧
    cdGet? (merge_config (HW_init_config "adder") [("Trace", .vbool false)]) "hdl" =
      some (.vstr "myhdl") := by
  refine ⟨?_, ?_, ?_⟩
  · exact (default_hdl_per_operation "adder" [] [] (by decide) (Or.inl rfl)).1
  · exact (default_hdl_per_operation "adder" [] [("Trace", .vbool false)]
      (by decide) (Or.inl rfl)).2.1
  · exact (default_hdl_per_operation "adder" [] [("Trace", .vbool false)]
      (by decide) (Or.inl rfl)).2.2

/-- C1: when a `sim` call's keyword overrides request a truthy non-`'myhdl'`
backend that is registered, and carry no `hdl` key: if the backend declares
more than one representation, `sim` fails with
`ValueError('Must specify hdl for backend', backend)` naming that backend and
performs no conversion (the effect trace is empty); if it declares exactly
one, that representation is selected implicitly and becomes the merged
configuration's representation target. -/
theorem sim_backend_resolution (reg : Registry) (selfConfig kwargs : Dict)
    (st : ConvState) (cwd0 : String) (bs : String) (b : Backend)
    (hbk : dictGet? kwargs "backend" = some (.vstr bs))
    (hbne : bs ≠ "myhdl") (hbnz : bs ≠ "")
    (hreg : regGet? reg bs = some b)
    (hno : ∀ p ∈ kwargs, lc p.1 ≠ lc "hdl") :
    (1 < b.compilers.length →
      sim reg selfConfig kwargs st cwd0 =
        ⟨.error (.valueErr "Must specify hdl for backend" bs), st, []⟩) ∧
    (∀ c, b.compilers = [c] →
      sim_resolve_kwargs reg kwargs = .ok (kwargs ++ [("hdl", .vstr c)]) ∧
      cdGet? (merge_config selfConfig (kwargs ++ [("hdl", .vstr c)])) "hdl" =
        some (.vstr c)) := by
  have hexact : dictGet? kwargs "hdl" = none := dictGet?_eq_none_of_no_lc_key kwargs "hdl" hno
  have hcond : ((dictGet? kwargs "backend").getD (.vstr "myhdl")).truthy = true ∧
      (dictGet? kwargs "backend").getD (.vstr "myhdl") ≠ .vstr "myhdl" := by
    rw [hbk]
    refine ⟨?_, fun hx => hbne (Value.vstr.inj hx)⟩
    simp [Value.truthy, hbnz]
  constructor
  · intro hlen
    have hres : sim_resolve_kwargs reg kwargs =
        .error (.valueErr "Must specify hdl for backend" bs) := by
      unfold sim_resolve_kwargs
      rw [if_pos hcond]
      rw [hbk]
      simp only [hreg, hexact, Option.isSome_none, Bool.false_eq_true, if_false]
      rw [if_pos hlen]
    unfold sim
    rw [hres]
  · intro c hc
    have hres : sim_resolve_kwargs reg kwargs = .ok (kwargs ++ [("hdl", .vstr c)]) := by
      unfold sim_resolve_kwargs
      rw [if_pos hcond]
      rw [hbk]
      simp only [hreg, hexact, Option.isSome_none, Bool.false_eq_true, if_false, hc]
      rw [if_neg (by simp)]
      rw [dictSet_eq_append_of_no_lc_key kwargs "hdl" (.vstr c) hno]
    refine ⟨hres, ?_⟩
    rw [merge_config, if_neg (by simp)]
    simp only [cdGet?, cdUpdate]
    rw [aGet?_aUpd, aLast?_append_singleton]
    simp

/-- Applies C1 at a registry holding one two-representation backend and one
single-representation backend. -/
theorem sim_backend_resolution_applied :
    sim [("icarus", ⟨["verilog", "vhdl"]⟩)] (HW_init_config "adder")
        [("backend", .vstr "icarus")] emptyConvState "/w" =
      ⟨.error (.valueErr "Must specify hdl for backend" "icarus"), emptyConvState, []⟩ ∧
    sim_resolve_kwargs [("modelsim", ⟨["vhdl"]⟩)] [("backend", .vstr "modelsim")] =
      .ok [("backend", .vstr "modelsim"), ("hdl", .vstr "vhdl")] ∧
    cdGet? (merge_config (HW_init_config "adder")
        [("backend", .vstr "modelsim"), ("hdl", .vstr "vhdl")]) "hdl" =
      some (.vstr "vhdl") := by
  refine ⟨?_, ?_, ?_⟩
  · exact (sim_backend_resolution [("icarus", ⟨["verilog", "vhdl"]⟩)]
      (HW_init_config "adder") [("backend", .vstr "icarus")] emptyConvState "/w"
      "icarus" ⟨["verilog", "vhdl"]⟩ rfl (by decide) (by decide) rfl (by decide)).1
      (by decide)
  · exact ((sim_backend_resolution [("modelsim", ⟨["vhdl"]⟩)]
      (HW_init_config "adder") [("backend", .vstr "modelsim")] emptyConvState "/w"
      "modelsim" ⟨["vhdl"]⟩ rfl (by decide) (by decide) rfl (by decide)).2
      "vhdl" rfl).1
  · exact ((sim_backend_resolution [("modelsim", ⟨["vhdl"]⟩)]
      (HW_init_config "adder") [("backend", .vstr "modelsim")] emptyConvState "/w"
      "modelsim" ⟨["vhdl"]⟩ rfl (by decide) (by decide) rfl (by decide)).2
      "vhdl" rfl).2

/-- C9: when the instance's stored configuration names a registered
non-default backend but the `sim` call passes no overrides, the
implicit-representation selection and the ambiguous-selection check are both
skipped (the prologue reads the backend only from the overrides, so its
outcome is independent of the stored backend's `compilers`), conversion runs
with the stored `'myhdl'` representation target, and dispatch — reading the
merged configuration — still launches the stored external backend with that
target.  (The `portmap` attribute read succeeding is hypothesised: it lives
on the converter object and is written by collaborators outside this
module.) -/
theorem stored_backend_dispatch (reg : Registry) (topName bName : String) (b : Backend)
    (st : ConvState) (cwd0 : String) (pm : Value)
    (hbne : bName ≠ "myhdl")
    (hreg : regGet? reg bName = some b)
    (hpm : dictGet? st.myhdlAttrs "portmap" = some pm) :
    sim_resolve_kwargs reg [] = .ok [] ∧
    sim reg (cdSet (HW_init_config topName) "backend" (.vstr bName)) [] st cwd0 =
      ⟨.ok (.cosimResult bName),
       attrSet (attrSet (attrSet (attrSet st .toMyHDL "name" (.vstr topName))
         .toMyHDL "timescale" (.vstr "1ns/1ps")) .toMyHDL "no_testbench" (.vbool false))
         .toMyHDL "trace" (.vbool true),
       [.converterInvoked .toMyHDL, .chdir (.vstr "."),
        .cosimInvoked bName (.vstr "myhdl") [], .chdir (.vstr cwd0)]⟩ := by
  refine ⟨rfl, ?_⟩
  have haux := convert_aux_eval (cdSet (HW_init_config topName) "backend" (.vstr bName)) st
    "myhdl" topName .toMyHDL none (.vstr "1ns/1ps") (.vbool true) (.vbool true) (.vstr ".")
    rfl (by decide) rfl rfl rfl rfl rfl rfl
  have hport : attrGet?
      (attrSet (attrSet (attrSet (attrSet st .toMyHDL "name" (.vstr topName))
        .toMyHDL "timescale" (.vstr "1ns/1ps")) .toMyHDL "no_testbench" (.vbool false))
        .toMyHDL "trace" (.vbool true)) .toMyHDL "portmap" = some pm := by
    unfold attrGet?
    simp only [attrSet_attrs_self, dictGet?, dictSet]
    rw [aGet?_aSet, aGet?_aSet, aGet?_aSet, aGet?_aSet]
    simp only [id]
    exact hpm
  unfold sim
  rw [show sim_resolve_kwargs reg [] = .ok [] from rfl]
  simp only [merge_config, eq_self_iff_true, if_true]
  rw [haux]
  simp only []
  rw [show cdGet? (cdSet (HW_init_config topName) "backend" (.vstr bName)) "path" =
    some (.vstr ".") from rfl]
  simp only []
  unfold sim_dispatch
  rw [show cdGet? (cdSet (HW_init_config topName) "backend" (.vstr bName)) "backend" =
    some (.vstr bName) from rfl]
  simp only []
  rw [if_neg (fun hx => hbne (Value.vstr.inj hx))]
  rw [hreg]
  rw [show cdGet? (cdSet (HW_init_config topName) "backend" (.vstr bName)) "hdl" =
    some (.vstr "myhdl") from rfl]
  rw [show (Value.vbool (!((Value.vbool true).truthy || (Value.vbool true).truthy))) =
    Value.vbool false from rfl]
  rw [hport]
  rfl

/-- Applies C9: stored backend `icarus` with two declared representations and
no per-call overrides — no ambiguity error, conversion under `'myhdl'`, and
cosimulation dispatched to `icarus`. -/
theorem stored_backend_dispatch_applied :
    (sim [("icarus", ⟨["verilog", "vhdl"]⟩)]
        (cdSet (HW_init_config "adder") "backend" (.vstr "icarus")) []
        ⟨[("portmap", .vnone)], [], []⟩ "/w").result = .ok (.cosimResult "icarus") ∧
    (sim [("icarus", ⟨["verilog", "vhdl"]⟩)]
        (cdSet (HW_init_config "adder") "backend" (.vstr "icarus")) []
        ⟨[("portmap", .vnone)], [], []⟩ "/w").effects =
      [.converterInvoked .toMyHDL, .chdir (.vstr "."),
       .cosimInvoked "icarus" (.vstr "myhdl") [], .chdir (.vstr "/w")] := by
  have h := (stored_backend_dispatch [("icarus", ⟨["verilog", "vhdl"]⟩)] "adder" "icarus"
    ⟨["verilog", "vhdl"]⟩ ⟨[("portmap", .vnone)], [], []⟩ "/w" .vnone
    (by decide) rfl rfl).2
  exact ⟨by rw [h], by rw [h]⟩

theorem sim_dispatch_no_chdir (reg : Registry) (conf : Dict) (converter : ConverterId)
    (files : List String) (stc : ConvState) :
    ∀ e ∈ (sim_dispatch reg conf converter files stc).2, e.isChdir = false := by
  intro e he
  unfold sim_dispatch at he
  repeat' first
    | split at he
    | (simp only [] at he)
  all_goals first
    | exact absurd he (List.not_mem_nil e)
    | (rcases List.mem_singleton.mp he with rfl; rfl)
    | exact callGen_no_chdir _ _ _ (by assumption) e he

theorem foldCwd_scoped (A B : List Effect) (p : Value) (cwd0 : String)
    (hA : ∀ e ∈ A, e.isChdir = false) (hB : ∀ e ∈ B, e.isChdir = false)
    (hne : cwd0 ≠ ".") (habs : isAbsPath cwd0 = true) :
    foldCwd cwd0 (A ++ [.chdir p] ++ B ++ [.chdir (.vstr cwd0)]) = cwd0 := by
  rw [foldCwd_append, foldCwd_append, foldCwd_append]
  rw [foldCwd_of_no_chdir _ _ hA]
  rw [show foldCwd cwd0 [Effect.chdir p] = chdirResolve cwd0 p from rfl]
  rw [foldCwd_of_no_chdir _ _ hB]
  show chdirResolve (chdirResolve cwd0 p) (.vstr cwd0) = cwd0
  unfold chdirResolve
  simp only []
  rw [if_neg hne, if_pos habs]

/-- C6: on every exit path of `sim` — error before the scope, error inside the
scope, or normal return — replaying the effect trace from the starting
working directory ends at the starting working directory: the change into the
destination path is emitted exactly around the dispatch body and the saved
(absolute) directory is restored by `cd` on both normal and error exits. -/
theorem sim_restores_working_dir (reg : Registry) (selfConfig kwargs : Dict)
    (st : ConvState) (cwd0 : String) (habs : isAbsPath cwd0 = true) :
    foldCwd cwd0 (sim reg selfConfig kwargs st cwd0).effects = cwd0 := by
  have hne : cwd0 ≠ "." := by
    intro hE
    rw [hE] at habs
    exact absurd habs (by decide)
  unfold sim
  cases hr : sim_resolve_kwargs reg kwargs with
  | error e => rfl
  | ok kwargs1 =>
    simp only []
    split <;>
      first
        | exact foldCwd_of_no_chdir _ _ (convert_aux_no_chdir _ _)
        | (split <;>
            first
              | exact foldCwd_of_no_chdir _ _ (convert_aux_no_chdir _ _)
              | (split <;>
                  first
                    | exact foldCwd_scoped _ _ _ _ (convert_aux_no_chdir _ _)
                        (sim_dispatch_no_chdir _ _ _ _ _) hne habs
                    | exact foldCwd_of_no_chdir _ _ (convert_aux_no_chdir _ _)))

/-- Applies C6 at concrete calls: a failing `sim` (ambiguous backend, error
before the scope), a failing `sim` inside the scope (unregistered stored
backend), and a successful in-process `sim` into a relative destination
directory. -/
theorem sim_restores_working_dir_applied :
    foldCwd "/w" (sim [("icarus", ⟨["verilog", "vhdl"]⟩)] (HW_init_config "adder")
      [("backend", .vstr "icarus")] emptyConvState "/w").effects = "/w" ∧
    foldCwd "/w" (sim [] (cdSet (HW_init_config "adder") "backend" (.vstr "ghdl")) []
      emptyConvState "/w").effects = "/w" ∧
    foldCwd "/w" (sim [] (HW_init_config "adder") [("path", .vstr "out")]
      emptyConvState "/w").effects = "/w" := by
  refine ⟨?_, ?_, ?_⟩
  · exact sim_restores_working_dir [("icarus", ⟨["verilog", "vhdl"]⟩)]
      (HW_init_config "adder") [("backend", .vstr "icarus")] emptyConvState "/w" rfl
  · exact sim_restores_working_dir [] (cdSet (HW_init_config "adder") "backend" (.vstr "ghdl"))
      [] emptyConvState "/w" rfl
  · exact sim_restores_working_dir [] (HW_init_config "adder") [("path", .vstr "out")]
      emptyConvState "/w" rfl

end Uhdl
